import Mathlib

/-!
Verification of the named, closable, cross-thread work queue of
makidoll/secondlife-viewer (indra/llcommon WorkQueue, exercised by
indra/llcommon/tests/workqueue_test.cpp), of the Lua script-line result
contract (indra/newview/tests/llluamanager_test.cpp), and of
LLPresetsManager::deletePreset (indra/newview/llpresetsmanager.cpp).

The WorkQueue and LLLUAmanager implementations themselves are not part of
the source tree here (only their tests are), so those components are
modelled from the specification: a sequential shallow embedding in which
the interleaved order of post calls is a single list, the consumer is the
function evaluating the run loop, and blocking forever is represented by a
fueled function returning none for every fuel.
-/

namespace LL

/-- Modelled from the spec: the Queue Core of WorkQueue (workqueue.h is
absent from the source tree; only workqueue_test.cpp is present).
State is an ordered sequence of pending Work Items (append at tail,
consume at head), a monotonic closed flag, and - for the purpose of
observing execution order - a log of the items already executed, in
execution order. Work Items are identified by labels. -/
structure WorkQueue where
  pending : List Nat
  closed : Bool
  log : List Nat
deriving Repr, DecidableEq

/-- A freshly constructed queue: open, nothing pending, nothing run. -/
def emptyQueue : WorkQueue := ⟨[], false, []⟩

/-- Modelled from the spec: post(item) appends at the tail; posting to a
closed queue is a silent no-op (the item is never executed). -/
def WorkQueue.post (q : WorkQueue) (item : Nat) : WorkQueue :=
  if q.closed then q else ⟨q.pending ++ [item], q.closed, q.log⟩

/-- Modelled from the spec: close() sets the closed flag; idempotent. -/
def WorkQueue.close (q : WorkQueue) : WorkQueue :=
  ⟨q.pending, true, q.log⟩

/-- Post a whole sequence of items in order: the linearized order of the
append operations performed by any number of producers. -/
def WorkQueue.postAll (q : WorkQueue) (items : List Nat) : WorkQueue :=
  items.foldl WorkQueue.post q

/-- Modelled from the spec: runUntilClose() loops the blocking single-item
drain until the queue is both closed and empty.  Executing an item moves
it from the head of pending to the tail of the log.  In this sequential
embedding no other thread can post or close while the consumer runs, so a
wait on an open empty queue blocks forever, rendered as none; the fuel
argument bounds the number of loop iterations, and termination of the real
loop is (∃ fuel, ... = some result). -/
def WorkQueue.runUntilClose : Nat → WorkQueue → Option WorkQueue
  | 0, _ => none
  | fuel + 1, q =>
    match q.pending with
    | item :: rest => WorkQueue.runUntilClose fuel ⟨rest, q.closed, q.log ++ [item]⟩
    | [] => if q.closed then some q else none

theorem runUntilClose_sound :
    ∀ (fuel : Nat) (q res : WorkQueue), q.runUntilClose fuel = some res →
      res.closed = true ∧ res.pending = [] ∧ res.log = q.log ++ q.pending := by
  intro fuel
  induction fuel with
  | zero => intro q res h; simp [WorkQueue.runUntilClose] at h
  | succ n ih =>
    intro q res h
    match hq : q.pending with
    | item :: rest =>
      rw [WorkQueue.runUntilClose, hq] at h
      have := ih _ _ h
      simpa [hq, this.1, this.2.1] using this
    | [] =>
      rw [WorkQueue.runUntilClose, hq] at h
      by_cases hc : q.closed
      · simp [hc] at h
        subst h
        simp [hq, hc]
      · simp [hc] at h

theorem runUntilClose_open :
    ∀ (fuel : Nat) (q : WorkQueue), q.closed = false → q.runUntilClose fuel = none := by
  intro fuel
  induction fuel with
  | zero => intro q _; rfl
  | succ n ih =>
    intro q hc
    rw [WorkQueue.runUntilClose]
    match hq : q.pending with
    | item :: rest => exact ih _ hc
    | [] => simp [hc]

theorem runUntilClose_closed :
    ∀ (q : WorkQueue), q.closed = true →
      q.runUntilClose (q.pending.length + 1) = some ⟨[], true, q.log ++ q.pending⟩ := by
  intro q
  match q with
  | ⟨pending, closed, log⟩ =>
    intro hc
    subst hc
    induction pending generalizing log with
    | nil => simp [WorkQueue.runUntilClose]
    | cons item rest ih =>
      rw [List.length_cons]
      rw [WorkQueue.runUntilClose]
      simpa using ih (log ++ [item])

theorem postAll_open :
    ∀ (items : List Nat) (q : WorkQueue), q.closed = false →
      q.postAll items = ⟨q.pending ++ items, false, q.log⟩ := by
  intro items
  induction items with
  | nil => intro q hc; simp [WorkQueue.postAll, ← hc]
  | cons item rest ih =>
    intro q hc
    rw [WorkQueue.postAll, List.foldl_cons]
    have : q.post item = ⟨q.pending ++ [item], false, q.log⟩ := by
      simp [WorkQueue.post, hc]
    rw [this]
    have hr := ih ⟨q.pending ++ [item], false, q.log⟩ rfl
    simpa using hr

/-- C1: for every linearized sequence of post calls followed by closing
and draining, runUntilClose terminates and the execution log is exactly
the sequence of items in append order: strict FIFO, executed by the single
logical consumer evaluating the run loop. -/
theorem fifo_order (items : List Nat) :
    ((emptyQueue.postAll items).close).runUntilClose (items.length + 1) =
      some ⟨[], true, items⟩ := by
  have hpost := postAll_open items emptyQueue rfl
  have hclose : (emptyQueue.postAll items).close = ⟨items, true, []⟩ := by
    rw [hpost]; simp [WorkQueue.close, emptyQueue]
  rw [hclose]
  simpa using runUntilClose_closed ⟨items, true, []⟩ rfl

/-- C2: an item posted before close() is still eligible and is executed by
a subsequent runUntilClose() - in the concrete scenario post(setFlag);
close(); runUntilClose(), the item has not run before runUntilClose (it is
not in the log) and has run after (the final log is exactly [i]) - while
post on a closed queue is a silent no-op, so an item posted after close()
is never enqueued and hence never executed. -/
theorem post_before_close_runs (i : Nat) :
    (i ∉ ((emptyQueue.post i).close).log) ∧
    ((emptyQueue.post i).close).runUntilClose 2 = some ⟨[], true, [i]⟩ ∧
    (∀ (q : WorkQueue) (j : Nat), q.closed = true → q.post j = q) := by
  refine ⟨?_, ?_, ?_⟩
  · simp [emptyQueue, WorkQueue.post, WorkQueue.close]
  · simp [emptyQueue, WorkQueue.post, WorkQueue.close, WorkQueue.runUntilClose]
  · intro q j hc
    simp [WorkQueue.post, hc]

/-- Witness for C2 at the concrete item 0 and a concrete closed queue. -/
theorem post_before_close_runs_witness :
    (0 ∉ ((emptyQueue.post 0).close).log) ∧
    ((emptyQueue.post 0).close).runUntilClose 2 = some ⟨[], true, [0]⟩ ∧
    (⟨[], true, []⟩ : WorkQueue).closed = true ∧
    (⟨[], true, []⟩ : WorkQueue).post 1 = ⟨[], true, []⟩ :=
  ⟨(post_before_close_runs 0).1, (post_before_close_runs 0).2.1, rfl,
   (post_before_close_runs 0).2.2 ⟨[], true, []⟩ 1 rfl⟩

/-- C3: runUntilClose() terminates iff the queue is closed and its pending
sequence is empty.  Whenever the loop returns, the final state is closed
with empty pending and every already-enqueued item has been executed (the
final log is the old log followed by all of the old pending items); if the
queue is open it never returns (none for every fuel, since in this
sequential embedding nobody else can close it); if the queue is closed it
does return, after draining everything. -/
theorem runUntilClose_terminates_iff :
    (∀ (fuel : Nat) (q res : WorkQueue), q.runUntilClose fuel = some res →
       res.closed = true ∧ res.pending = [] ∧ res.log = q.log ++ q.pending) ∧
    (∀ (q : WorkQueue), q.closed = false → ∀ fuel, q.runUntilClose fuel = none) ∧
    (∀ (q : WorkQueue), q.closed = true →
       q.runUntilClose (q.pending.length + 1) = some ⟨[], true, q.log ++ q.pending⟩) :=
  ⟨runUntilClose_sound, fun q h fuel => runUntilClose_open fuel q h,
   runUntilClose_closed⟩

/-- Witness for C3 at concrete queues: a closed drained queue, an open
queue, and a closed queue with one pending item. -/
theorem runUntilClose_terminates_iff_witness :
    (⟨[], true, [5]⟩ : WorkQueue).closed = true ∧
    (⟨[], false, []⟩ : WorkQueue).runUntilClose 3 = none ∧
    (⟨[2], true, []⟩ : WorkQueue).runUntilClose 2 = some ⟨[], true, [2]⟩ := by
  refine ⟨(runUntilClose_terminates_iff.1 1 ⟨[], true, [5]⟩ ⟨[], true, [5]⟩ (by decide)).1,
          runUntilClose_terminates_iff.2.1 ⟨[], false, []⟩ rfl 3, ?_⟩
  have h := runUntilClose_terminates_iff.2.2 ⟨[2], true, []⟩ rfl
  simpa using h

/-- Modelled from the spec: the execution count of a postEvery(I, body)
chain.  Each firing runs a wrapper Work Item; if the queue has closed in
the interim the wrapper is not run and the chain stops; otherwise the
wrapper invokes the body once, and constructs and schedules the next
wrapper exactly when the body returned true.  The argument body gives the
return value of the i-th invocation (counting from 0), closed tells
whether the queue has closed before the i-th wrapper runs, and fuel bounds
the chain length; the result is the number of body executions. -/
def postEveryCount (body closed : Nat → Bool) : Nat → Nat
  | 0 => 0
  | fuel + 1 =>
    if closed 0 then 0
    else if body 0 then
      1 + postEveryCount (fun i => body (i + 1)) (fun i => closed (i + 1)) fuel
    else 1

/-- Counterexample to C4 as stated: take k = 0 and a body returning true
for its first 0 invocations and false on the 1st invocation (body always
false).  The claim says the body is executed exactly 0 times, but the
chain must invoke the body once to observe the false return, so it is
executed once. -/
theorem postEveryCount_cex :
    postEveryCount (fun _ => false) (fun _ => false) 1 = 1 ∧ (1 : Nat) ≠ 0 := by
  constructor
  · rfl
  · decide

/-- C4 amended: for every k and every body returning true on its first k
invocations and false on the (k+1)-th, the postEvery chain executes the
body exactly k + 1 times (the final execution being the one that returns
false); and once the queue has closed, no wrapper runs and no further
firing is scheduled, giving 0 further executions. -/
theorem postEveryCount_runs :
    (∀ (k : Nat) (body : Nat → Bool), (∀ i, i < k → body i = true) →
       body k = false → ∀ fuel, k < fuel →
         postEveryCount body (fun _ => false) fuel = k + 1) ∧
    (∀ (body closed : Nat → Bool) (fuel : Nat), closed 0 = true →
       postEveryCount body closed fuel = 0) := by
  constructor
  · intro k
    induction k with
    | zero =>
      intro body _ hfalse fuel hfuel
      match fuel, hfuel with
      | f + 1, _ => simp [postEveryCount, hfalse]
    | succ k ih =>
      intro body htrue hfalse fuel hfuel
      match fuel, hfuel with
      | f + 1, hf =>
        have h0 : body 0 = true := htrue 0 (Nat.succ_pos k)
        have hrec := ih (fun i => body (i + 1))
          (fun i hi => htrue (i + 1) (Nat.succ_lt_succ hi)) hfalse f
          (Nat.lt_of_succ_lt_succ hf)
        simp only [postEveryCount, h0, if_true, if_false, Bool.false_eq_true]
        rw [hrec]
        omega
  · intro body closed fuel hc
    match fuel with
    | 0 => rfl
    | f + 1 => simp [postEveryCount, hc]

/-- Witness for the amended C4 at k = 2, the scenario of workqueue_test
test<3>: body returns true on invocations 0 and 1 and false on invocation
2, and is executed 3 times; and a closed queue yields 0 executions. -/
theorem postEveryCount_runs_witness :
    postEveryCount (fun i => decide (i < 2)) (fun _ => false) 5 = 3 ∧
    postEveryCount (fun _ => true) (fun _ => true) 5 = 0 :=
  ⟨postEveryCount_runs.1 2 (fun i => decide (i < 2)) (by decide) (by decide) 5
     (by decide),
   postEveryCount_runs.2 (fun _ => true) (fun _ => true) 5 rfl⟩

/-- Modelled from the spec: the pair of queues involved in a postTo
dispatch (origin and target), specialized to the wrappers postTo creates.
The pending sequence of the target queue holds wrappers around the
zero-argument work function; the pending sequence of the origin queue
holds the captured values carried by the callback wrappers posted back;
callbackLog records the values the user callback has been invoked with, in
invocation order. -/
structure DispatchState (T : Type) where
  targetPending : List (Unit → T)
  originPending : List T
  callbackLog : List T

/-- Both queues empty, callback never invoked yet. -/
def DispatchState.empty (T : Type) : DispatchState T := ⟨[], [], []⟩

/-- Modelled from the spec: postTo(target, work, callback) immediately
returns after posting a wrapper around work to the target queue. -/
def DispatchState.postTo {T : Type} (s : DispatchState T) (work : Unit → T) :
    DispatchState T :=
  ⟨s.targetPending ++ [work], s.originPending, s.callbackLog⟩

/-- Modelled from the spec: the target consumer runs one item: it executes
the work function, captures the resulting value, and posts a second
wrapper carrying that value to the origin queue. -/
def DispatchState.targetRunOne {T : Type} (s : DispatchState T) : DispatchState T :=
  match s.targetPending with
  | [] => s
  | w :: rest => ⟨rest, s.originPending ++ [w ()], s.callbackLog⟩

/-- Modelled from the spec: the origin consumer runs one item: it invokes
the user callback with the carried value.  The callback runs inside this
step, i.e. on the origin consumer, never on the target consumer. -/
def DispatchState.originRunOne {T : Type} (s : DispatchState T) : DispatchState T :=
  match s.originPending with
  | [] => s
  | v :: rest => ⟨s.targetPending, rest, s.callbackLog ++ [v]⟩

/-- C5: for every result type T and work function, after postTo followed
by one step of the target consumer and one step of the origin consumer,
the callback has been invoked exactly once, with the value the work
function returned, by the origin consumer; concretely a work function
returning 17 leaves the caller-owned variable (the last value assigned by
the callback) equal to 17. -/
theorem postTo_callback (T : Type) (work : Unit → T) :
    (((DispatchState.empty T).postTo work).targetRunOne).originRunOne =
      ⟨[], [], [work ()]⟩ ∧
    (((DispatchState.empty Nat).postTo (fun _ => 17)).targetRunOne).originRunOne.callbackLog
      = [17] :=
  ⟨rfl, rfl⟩

/-- Modelled from the spec: the process-wide Named Registry.  entries maps
a name to the non-owning reference stored at Queue Core construction
(queue identity); alive lists the queue identities whose owning reference,
held by application code, has not yet been dropped.  Entries are never
pruned; a dead entry resolves to nothing. -/
structure Registry where
  entries : List (String × Nat)
  alive : List Nat
deriving Repr, DecidableEq

/-- First entry stored under a name, mirroring a map lookup. -/
def findEntry : List (String × Nat) → String → Option Nat
  | [], _ => none
  | (k, v) :: rest, name => if k = name then some v else findEntry rest name

/-- Modelled from the spec: promoting a non-owning (weak) reference to an
owning one: succeeds exactly while the queue is alive. -/
def Registry.promote (r : Registry) (qid : Nat) : Option Nat :=
  if qid ∈ r.alive then some qid else none

/-- Modelled from the spec: getInstance(name) looks up the stored
non-owning reference and attempts to promote it; an unregistered name or
an expired reference yields nothing. -/
def Registry.getInstance (r : Registry) (name : String) : Option Nat :=
  match findEntry r.entries name with
  | some qid => r.promote qid
  | none => none

/-- Modelled from the spec: constructing a queue with the given name
registers a non-owning reference under that name; the queue is alive while
application code holds its owning reference. -/
def Registry.construct (r : Registry) (name : String) (qid : Nat) : Registry :=
  ⟨(name, qid) :: r.entries, qid :: r.alive⟩

/-- Modelled from the spec: the last owning reference held by application
code is dropped; the registry entry remains but now resolves to nothing
(registry presence never extends a queue's life). -/
def Registry.dropOwner (r : Registry) (qid : Nat) : Registry :=
  ⟨r.entries, r.alive.erase qid⟩

/-- C6: registry round-trip.  While a queue constructed under name N is
alive, getInstance(N) returns an owning reference to that same queue,
which coincides with promoting the queue's own weak reference; after the
last owning reference is dropped, getInstance(N) returns nothing. -/
theorem registry_round_trip (r : Registry) (name : String) (qid : Nat) :
    ((r.construct name qid).getInstance name = some qid ∧
     (r.construct name qid).getInstance name = (r.construct name qid).promote qid) ∧
    (qid ∉ r.alive → ((r.construct name qid).dropOwner qid).getInstance name = none) := by
  refine ⟨⟨?_, ?_⟩, ?_⟩
  · simp [Registry.construct, Registry.getInstance, findEntry, Registry.promote]
  · simp [Registry.construct, Registry.getInstance, findEntry]
  · intro hdead
    simp [Registry.construct, Registry.dropOwner, Registry.getInstance, findEntry,
      Registry.promote, List.erase_cons_head, hdead]

/-- Witness for C6 at the empty registry, name "N" and queue identity 0. -/
theorem registry_round_trip_witness :
    ((Registry.construct ⟨[], []⟩ "N" 0).getInstance "N" = some 0 ∧
     (Registry.construct ⟨[], []⟩ "N" 0).getInstance "N" =
       (Registry.construct ⟨[], []⟩ "N" 0).promote 0) ∧
    ((Registry.construct ⟨[], []⟩ "N" 0).dropOwner 0).getInstance "N" = none :=
  ⟨(registry_round_trip ⟨[], []⟩ "N" 0).1,
   (registry_round_trip ⟨[], []⟩ "N" 0).2 (by decide)⟩

/-- Decimal rendering of a natural number, most significant digit first:
a structurally transparent reference function equal to the fueled digit
rendering used by Nat.repr (proved below), used to reason about generated
queue names. -/
def repChars (n : Nat) : List Char :=
  if _h : n < 10 then [Nat.digitChar n]
  else repChars (n / 10) ++ [Nat.digitChar (n % 10)]
termination_by n
decreasing_by exact Nat.div_lt_self (by omega) (by omega)

theorem toDigitsCore_eq_repChars :
    ∀ (fuel n : Nat) (acc : List Char), n < fuel →
      Nat.toDigitsCore 10 fuel n acc = repChars n ++ acc := by
  intro fuel
  induction fuel with
  | zero => intro n acc h; exact absurd h (Nat.not_lt_zero n)
  | succ f ih =>
    intro n acc h
    rw [Nat.toDigitsCore]
    by_cases hdiv : n / 10 = 0
    · have hn : n < 10 := by omega
      have hmod : n % 10 = n := Nat.mod_eq_of_lt hn
      simp only [hdiv, if_true, hmod]
      rw [repChars]
      simp [hn]
    · have hn : ¬ n < 10 := by omega
      have hlt : n / 10 < f := by omega
      simp only [hdiv, if_false]
      rw [ih (n / 10) (Nat.digitChar (n % 10) :: acc) hlt]
      conv_rhs => rw [repChars]
      rw [dif_neg hn]
      simp [List.append_assoc]

theorem toDigits_eq_repChars (n : Nat) : Nat.toDigits 10 n = repChars n := by
  rw [Nat.toDigits, toDigitsCore_eq_repChars (n + 1) n [] (Nat.lt_succ_self n)]
  simp

/-- Reads a most-significant-first digit string back into a number, used
to invert the rendering. -/
def decodeDigits : List Char → Nat → Nat
  | [], acc => acc
  | c :: cs, acc => decodeDigits cs (acc * 10 + (c.toNat - 48))

theorem decodeDigits_append (l1 l2 : List Char) :
    ∀ acc, decodeDigits (l1 ++ l2) acc = decodeDigits l2 (decodeDigits l1 acc) := by
  induction l1 with
  | nil => intro acc; rfl
  | cons c cs ih =>
    intro acc
    rw [List.cons_append, decodeDigits, decodeDigits]
    exact ih _

theorem digitChar_decode (d : Nat) (h : d < 10) : (Nat.digitChar d).toNat - 48 = d := by
  interval_cases d <;> decide

theorem decodeDigits_repChars (n : Nat) :
    ∀ acc, decodeDigits (repChars n) acc = acc * 10 ^ (repChars n).length + n := by
  induction n using repChars.induct with
  | case1 n h =>
    intro acc
    rw [repChars, dif_pos h]
    rw [decodeDigits, decodeDigits, digitChar_decode n h]
    simp
  | case2 n h ih =>
    intro acc
    rw [repChars, dif_neg h]
    rw [decodeDigits_append, ih acc, decodeDigits, decodeDigits,
      digitChar_decode (n % 10) (Nat.mod_lt n (by omega))]
    have hlen : (repChars (n / 10) ++ [Nat.digitChar (n % 10)]).length =
        (repChars (n / 10)).length + 1 := by simp
    rw [hlen, pow_succ, ← Nat.mul_assoc]
    generalize acc * 10 ^ (repChars (n / 10)).length = A
    omega

theorem repChars_inj (m n : Nat) (h : repChars m = repChars n) : m = n := by
  have hm := decodeDigits_repChars m 0
  have hn := decodeDigits_repChars n 0
  rw [h] at hm
  rw [hm] at hn
  simpa using hn

theorem nat_repr_inj (m n : Nat) (h : Nat.repr m = Nat.repr n) : m = n := by
  apply repChars_inj
  have hd := congrArg String.data h
  rw [Nat.repr, Nat.repr, toDigits_eq_repChars, toDigits_eq_repChars] at hd
  simpa [List.asString] using hd

/-- Modelled from the spec: the name synthesized for a queue constructed
with no explicit name, a monotonically increasing counter suffix on the
fixed base label "WorkQueue" (workqueue_test test<1> checks that such a
name starts with "WorkQueue"). -/
def genName (counter : Nat) : String := "WorkQueue" ++ Nat.repr counter

theorem genName_inj (m n : Nat) (h : genName m = genName n) : m = n := by
  apply nat_repr_inj
  have hd := congrArg String.data h
  simp only [genName, String.data_append] at hd
  exact String.ext (List.append_cancel_left hd)

/-- C8: two auto-named queues alive at the same time carry distinct
generated names, since each construction consumes a fresh value of the
monotonic counter and distinct counter values yield distinct names; and
every generated name begins with the fixed default base label
"WorkQueue". -/
theorem autoName_distinct :
    (∀ m n : Nat, m ≠ n → genName m ≠ genName n) ∧
    (∀ n : Nat, ∃ s : String, genName n = "WorkQueue" ++ s) := by
  constructor
  · intro m n hmn hcontra
    exact hmn (genName_inj m n hcontra)
  · intro n
    exact ⟨Nat.repr n, rfl⟩

/-- Witness for C8 at the concrete counter values 0 and 1. -/
theorem autoName_distinct_witness :
    ((0 : Nat) ≠ 1 ∧ genName 0 ≠ genName 1) ∧
    ∃ s : String, genName 3 = "WorkQueue" ++ s :=
  ⟨⟨by decide, autoName_distinct.1 0 1 (by decide)⟩, autoName_distinct.2 3⟩

/-- A dynamic value as marshaled back from a script: the fragment of the
document value type that the result contract mentions. -/
inductive LuaValue where
  | undef
  | intV (n : Int)
  | strV (s : String)
deriving Repr, DecidableEq

/-- Modelled from the spec: the outcome of running a script chunk to
completion (the LLLUAmanager implementation is absent from the source
tree; only llluamanager_test.cpp is present): either the sequence of
values the script produced on normal completion, or a failure carrying a
diagnostic message. -/
inductive ScriptOutcome where
  | results (vs : List LuaValue)
  | failure (msg : String)
deriving Repr, DecidableEq

/-- Modelled from the spec: the (count, result) pair returned by
waitScriptLine (and by the future of startScriptLine): the count signals
how many values the script produced - 1 with result holding that value
for a single normal result, 0 for no result - and is negative on failure,
with result carrying the diagnostic message. -/
def waitScriptLine : ScriptOutcome → Int × LuaValue
  | .results [] => (0, .undef)
  | .results [v] => (1, v)
  | .results vs => (vs.length, .undef)
  | .failure msg => (-1, .strV msg)

/-- C9: for every script outcome, the returned (count, result) pair
satisfies: count = 1 exactly when the script produced one normal result,
with result holding that value; count = 0 exactly when it produced no
result; count is negative exactly on failure, with result carrying the
diagnostic message. -/
theorem waitScriptLine_count (o : ScriptOutcome) :
    ((waitScriptLine o).1 = 1 ↔
       ∃ v, o = .results [v] ∧ (waitScriptLine o).2 = v) ∧
    ((waitScriptLine o).1 = 0 ↔ o = .results []) ∧
    ((waitScriptLine o).1 < 0 ↔
       ∃ msg, o = .failure msg ∧ (waitScriptLine o).2 = .strV msg) := by
  match o with
  | .results [] => simp [waitScriptLine]
  | .results [v] => simp [waitScriptLine]
  | .results (v1 :: v2 :: rest) =>
    refine ⟨?_, ?_, ?_⟩ <;> simp [waitScriptLine] <;> omega
  | .failure msg => simp [waitScriptLine]

/-- Witness for C9 at a one-result script, a no-result script and a
failing script. -/
theorem waitScriptLine_count_witness :
    (waitScriptLine (.results [.intV 17])).1 = 1 ∧
    (waitScriptLine (.results [])).1 = 0 ∧
    (waitScriptLine (.failure "err")).1 < 0 :=
  ⟨(waitScriptLine_count (.results [.intV 17])).1.mpr ⟨.intV 17, rfl, rfl⟩,
   (waitScriptLine_count (.results [])).2.1.mpr rfl,
   (waitScriptLine_count (.failure "err")).2.2.mpr ⟨"err", rfl, rfl⟩⟩

/-- The in-memory state of LLPresetsManager that deletePreset observes and
updates: the preset name list mPresetNames, and the number of times
mPresetListChangeSignal has fired. -/
structure LLPresetsManager where
  mPresetNames : List String
  signalCount : Nat
deriving Repr, DecidableEq

/-- LLPresetsManager::deletePreset (llpresetsmanager.cpp lines 212-236).
The argument filesRemoved stands for the value deleteFilesInDir returns
for this preset file, abstracting the disk.  The function first looks the
name up in mPresetNames and returns false leaving everything unchanged if
absent; it then returns false leaving everything unchanged if fewer than
one file was removed from disk; otherwise it erases the found (first)
occurrence of the name, fires the preset-list-change signal, and returns
true. -/
def LLPresetsManager.deletePreset (m : LLPresetsManager) (name : String)
    (filesRemoved : Int) : Bool × LLPresetsManager :=
  if name ∈ m.mPresetNames then
    if filesRemoved < 1 then (false, m)
    else (true, ⟨m.mPresetNames.erase name, m.signalCount + 1⟩)
  else (false, m)

/-- C10: deletePreset returns false and leaves the preset-name list and
the signal count unchanged whenever the name is absent from the list or
fewer than one file was removed from disk; exactly when the name is
present and the on-disk removal succeeds it erases the name from the
list, fires the preset-list-change signal, and returns true. -/
theorem deletePreset_spec (m : LLPresetsManager) (name : String)
    (filesRemoved : Int) :
    (name ∉ m.mPresetNames → m.deletePreset name filesRemoved = (false, m)) ∧
    (filesRemoved < 1 → m.deletePreset name filesRemoved = (false, m)) ∧
    (name ∈ m.mPresetNames → 1 ≤ filesRemoved →
       m.deletePreset name filesRemoved =
         (true, ⟨m.mPresetNames.erase name, m.signalCount + 1⟩)) := by
  refine ⟨?_, ?_, ?_⟩
  · intro habs
    simp [LLPresetsManager.deletePreset, habs]
  · intro hfr
    by_cases hmem : name ∈ m.mPresetNames <;>
      simp [LLPresetsManager.deletePreset, hmem, hfr]
  · intro hmem hfr
    rw [LLPresetsManager.deletePreset, if_pos hmem, if_neg (by omega)]

/-- Witness for C10 on a concrete manager holding two presets: an absent
name, a failed disk removal, and a successful deletion. -/
theorem deletePreset_spec_witness :
    ("bar" ∉ ["Default", "foo"] ∧
      (⟨["Default", "foo"], 0⟩ : LLPresetsManager).deletePreset "bar" 5 =
        (false, ⟨["Default", "foo"], 0⟩)) ∧
    ((0 : Int) < 1 ∧
      (⟨["Default", "foo"], 0⟩ : LLPresetsManager).deletePreset "foo" 0 =
        (false, ⟨["Default", "foo"], 0⟩)) ∧
    (⟨["Default", "foo"], 0⟩ : LLPresetsManager).deletePreset "foo" 1 =
      (true, ⟨["Default"], 1⟩) := by
  refine ⟨⟨by decide, (deletePreset_spec ⟨["Default", "foo"], 0⟩ "bar" 5).1 (by decide)⟩,
          ⟨by decide, (deletePreset_spec ⟨["Default", "foo"], 0⟩ "foo" 0).2.1 (by decide)⟩,
          ?_⟩
  have h := (deletePreset_spec ⟨["Default", "foo"], 0⟩ "foo" 1).2.2 (by decide) (by decide)
  rw [h]
  decide

end LL
